import Mathlib

/-!
Shallow embedding of the character-level RNN text-generation pipeline
(`utils.py` and the generation loop of `keras_model.py`).

Conventions of the embedding:
* Python strings are `List Char`; encoded sequences are `List ℕ`.
* `numpy` float64 probability arithmetic is modelled over `ℚ` (the values
  appearing in the verified claims are exact in both).
* `np.random` draws are passed in explicitly: a uniform draw in `[0,1)` is a
  `ℚ` parameter, `random.choice` is an index parameter, `random.randint(0,b)`
  is `r % (b+1)` for a parameter `r`.
* Fallible code returns `Except String _`, with the error string naming the
  Python exception raised at that point.
-/

/-! ### Symbol codec (`utils.create_dictionary`, `encode_text`, `decode_text`) -/

/-- Code points of Python `string.printable`:
digits, lowercase, uppercase, punctuation, whitespace (in that order). -/
def printableCodes : List ℕ :=
  ((List.range 10).map (fun i => i + 48)) ++
  ((List.range 26).map (fun i => i + 97)) ++
  ((List.range 26).map (fun i => i + 65)) ++
  (((List.range 15).map (fun i => i + 33)) ++
   ((List.range 7).map (fun i => i + 58)) ++
   ((List.range 6).map (fun i => i + 91)) ++
   ((List.range 4).map (fun i => i + 123))) ++
  [32, 9, 10, 13, 11, 12]

/-- Generic insertion of an element into a list sorted by `le`. -/
def insertLe (le : α → α → Bool) (x : α) : List α → List α
  | [] => [x]
  | y :: ys => if le x y then x :: y :: ys else y :: insertLe le x ys

/-- Insertion sort by `le` (a deterministic, stable sort). -/
def isortLe (le : α → α → Bool) (l : List α) : List α :=
  l.foldr (insertLe le) []

/-- `create_dictionary`: `sorted(ch for ch in string.printable if ch not in
("\x0b", "\x0c", "\r"))`. -/
def chars : List Char :=
  isortLe (fun a b => a ≤ b)
    ((printableCodes.filter (fun c => c != 11 && c != 12 && c != 13)).map Char.ofNat)

/-- `create_dictionary`: `char2id` maps the i-th sorted character to `i + 1`;
`encode_text` substitutes `0` (`char2id.get(ch, 0)`) for unmapped characters. -/
def char2id (c : Char) : ℕ :=
  match List.findIdx? (fun x => x == c) chars with
  | some i => i + 1
  | none => 0

/-- `encode_text`: map every character through `char2id` (total). -/
def encode_text (text : List Char) : List ℕ :=
  text.map char2id

/-- `ID2CHAR` lookup: id `0` maps to the empty string `""`, id `i + 1` maps to
the i-th sorted character; any other id raises `KeyError` in Python. -/
def id2char (i : ℕ) : Except String (List Char) :=
  if i = 0 then .ok []
  else
    match chars[i - 1]? with
    | some c => .ok [c]
    | none => .error "KeyError"

/-- `decode_text`: `"".join(id2char[ch] for ch in int_array)`. -/
def decode_text : List ℕ → Except String (List Char)
  | [] => .ok []
  | i :: is =>
    match id2char i, decode_text is with
    | .ok c, .ok rest => .ok (c ++ rest)
    | .error e, _ => .error e
    | _, .error e => .error e

/-! ### Constrained sampler (`utils.sample_from_probs`) -/

/-- `np.argsort(probs)` modelled as a deterministic ascending sort of the
indices `0 .. len-1` by value, ties broken by index (stable). -/
def argsortLe (probs : List ℚ) : List ℕ :=
  isortLe
    (fun i j =>
      decide (probs.getD i 0 < probs.getD j 0 ∨
        (probs.getD i 0 = probs.getD j 0 ∧ i ≤ j)))
    (List.range probs.length)

/-- Number of entries zeroed by `probs[np.argsort(probs)[:-top_n]] = 0`:
the Python slice `[:-n]` is empty for `n = 0` and drops the last `n`
positions otherwise. -/
def dropCount (n top_n : ℕ) : ℕ :=
  if top_n = 0 then 0 else n - top_n

/-- Indices zeroed by the truncation step. -/
def droppedIdx (probs : List ℚ) (top_n : ℕ) : List ℕ :=
  (argsortLe probs).take (dropCount probs.length top_n)

/-- Indices retained by the truncation step (the `top_n` largest entries). -/
def keptIdx (probs : List ℚ) (top_n : ℕ) : List ℕ :=
  (argsortLe probs).drop (dropCount probs.length top_n)

/-- The truncated vector: zero at dropped indices, original value elsewhere. -/
def truncateTop (probs : List ℚ) (top_n : ℕ) : List ℚ :=
  (List.range probs.length).map
    (fun i => if i ∈ droppedIdx probs top_n then 0 else probs.getD i 0)

/-- Inverse-CDF draw of `np.random.choice(len(p), p=p)` at a uniform value
`r ∈ [0,1)`: the first index whose cumulative probability exceeds `r`
(clamped to the last index). -/
def chooseIdx : List ℚ → ℚ → ℕ
  | [], _ => 0
  | [_], _ => 0
  | q :: rest, r => if r < q then 0 else chooseIdx rest (r - q) + 1

/-- `sample_from_probs`: truncate to the `top_n` largest entries, renormalise,
draw.  When the truncated vector sums to zero the renormalisation divides by
zero (`NaN`s) and `np.random.choice` raises; modelled as the error the spec
names `DegenerateDistributionError`. -/
def sample_from_probs (probs : List ℚ) (top_n : ℕ) (r : ℚ) : Except String ℕ :=
  let t := truncateTop probs top_n
  if t.sum = 0 then .error "DegenerateDistributionError"
  else .ok (chooseIdx (t.map (fun q => q / t.sum)) r)

/-! ### Seed selector (`utils.generate_seed`) -/

/-- `generate_seed`: `random.choice(seq_lens)` is modelled by the index
`choice % len(seq_lens)`; `random.randint(0, len(text) - seq_len - 1)` raises
`ValueError` when the upper bound is negative and is otherwise modelled by
`r % (len(text) - seq_len)` (uniform over the inclusive range). -/
def generate_seed (text : List Char) (seqLens : List ℕ) (choice r : ℕ) :
    Except String (List Char) :=
  let seq_len := seqLens.getD (choice % seqLens.length) 0
  if text.length < seq_len + 1 then .error "ValueError"
  else
    let start := r % (text.length - seq_len)
    .ok ((text.drop start).take seq_len)

/-! ### In-memory batch generator (`utils.batch_generator`) -/

/-- `num_batches = (len(sequence) - 1) // (batch_size * seq_len)`. -/
def numBatchesOf (n B L : ℕ) : ℕ :=
  (n - 1) / (B * L)

/-- Row-major `np.reshape(l, [rows, cols])`. -/
def reshape2 (l : List ℕ) (rows cols : ℕ) : List (List ℕ) :=
  (List.range rows).map (fun r => (List.range cols).map (fun c => l.getD (r * cols + c) 0))

/-- The k-th of the `np.split(m, num_batches, axis=1)` column slices of
width `L`. -/
def colSlice (m : List (List ℕ)) (L k : ℕ) : List (List ℕ) :=
  m.map (fun row => (row.drop (k * L)).take L)

/-- The construction-time check of `batch_generator`: raises `ValueError`
("No batches created…") when `num_batches` is zero, before any batch is
produced; otherwise reports `num_batches`. -/
def batch_generator_check (seq : List ℕ) (B L : ℕ) : Except String ℕ :=
  if numBatchesOf seq.length B L = 0 then .error "ValueError"
  else .ok (numBatchesOf seq.length B L)

/-- Input grid slice emitted by `batch_generator` at epoch `e`, batch `k`:
`np.split(np.roll(x, -e, axis=0), num_batches, axis=1)[k]` where
`x = np.reshape(sequence[:rounded_len], [batch_size, num_batches * seq_len])`.
`np.roll(x, -e, axis=0)` is `List.rotate _ e`. -/
def batchX (seq : List ℕ) (B L e k : ℕ) : List (List ℕ) :=
  let N := numBatchesOf seq.length B L
  colSlice ((reshape2 (seq.take (N * B * L)) B (N * L)).rotate e) L k

/-- Target grid slice emitted by `batch_generator` at epoch `e`, batch `k`:
same as `batchX` but built from `sequence[1 : rounded_len + 1]`. -/
def batchY (seq : List ℕ) (B L e k : ℕ) : List (List ℕ) :=
  let N := numBatchesOf seq.length B L
  colSlice ((reshape2 ((seq.drop 1).take (N * B * L)) B (N * L)).rotate e) L k

/-- Element `[b, t]` of the input batch at epoch `e`, batch `k`. -/
def xElemAt (seq : List ℕ) (B L e k b t : ℕ) : ℕ :=
  ((batchX seq B L e k).getD b []).getD t 0

/-- Element `[b, t]` of the target batch at epoch `e`, batch `k`. -/
def yElemAt (seq : List ℕ) (B L e k b t : ℕ) : ℕ :=
  ((batchY seq B L e k).getD b []).getD t 0

/-- Modelled from the spec: the logical token stream underlying output row `b`
at epoch `e` of the in-memory generator — the contiguous segment of the
corpus assigned to the physical lane `(b + e) % B`, read from offset `j`. -/
def laneStreamSpec (seq : List ℕ) (B L e b j : ℕ) : ℕ :=
  seq.getD ((((b + e) % B) * (numBatchesOf seq.length B L * L)) + j) 0

/-- Concatenation of output row `b`'s slices across all batches of epoch `e`. -/
def epochRow (seq : List ℕ) (B L e b : ℕ) : List ℕ :=
  ((List.range (numBatchesOf seq.length B L)).map
    (fun k => (batchX seq B L e k).getD b [])).flatten

/-! ### Streaming batch generator (`utils.io_batch_generator`) -/

/-- Cursor/epoch state of `io_batch_generator` before loop iteration `i`,
for a source of `n` bytes read in chunks of `M = max_bytes_in_ram` bytes.
One iteration: increment the epoch if the cursor is at the start, read a
chunk (advancing the cursor by at most `M`), then seek back to the start if
the cursor is within `M` of `effective_file_end = n - n % M`. -/
def ioState (n M : ℕ) : ℕ → ℕ × ℕ
  | 0 => (0, 0)
  | i + 1 =>
    let s := ioState n M i
    let ep := if s.1 = 0 then s.2 + 1 else s.2
    let pos1 := min (s.1 + M) n
    let pos2 := if n - n % M < pos1 + M then 0 else pos1
    (pos2, ep)

/-- Cursor position at the start of iteration `i`. -/
def ioPosAt (n M i : ℕ) : ℕ :=
  (ioState n M i).1

/-- Epoch number attached to every batch yielded during iteration `i`
(the counter after the increment-at-start-of-source check). -/
def ioEpochAt (n M i : ℕ) : ℕ :=
  if (ioState n M i).1 = 0 then (ioState n M i).2 + 1 else (ioState n M i).2

/-- The chunk of text read during iteration `i`. -/
def ioChunkAt (content : List Char) (M i : ℕ) : List Char :=
  (content.drop (ioPosAt content.length M i)).take M

/-- Input batch `k` built from an encoded chunk by `io_batch_generator`
(same reshape/split as the in-memory generator, but no rotation). -/
def ioBatchX (enc : List ℕ) (B L k : ℕ) : List (List ℕ) :=
  let N := numBatchesOf enc.length B L
  colSlice (reshape2 (enc.take (N * B * L)) B (N * L)) L k

/-- Target batch `k` built from an encoded chunk by `io_batch_generator`. -/
def ioBatchY (enc : List ℕ) (B L k : ℕ) : List (List ℕ) :=
  let N := numBatchesOf enc.length B L
  colSlice (reshape2 ((enc.drop 1).take (N * B * L)) B (N * L)) L k

/-- Element `[b, t]` of streaming input batch `k`. -/
def ioXElemAt (enc : List ℕ) (B L k b t : ℕ) : ℕ :=
  ((ioBatchX enc B L k).getD b []).getD t 0

/-- Element `[b, t]` of streaming target batch `k`. -/
def ioYElemAt (enc : List ℕ) (B L k b t : ℕ) : ℕ :=
  ((ioBatchY enc B L k).getD b []).getD t 0

/-- Modelled from the spec: the logical token stream underlying row `b` of a
streaming chunk — the contiguous segment of the encoded chunk assigned to
row `b`, read from offset `j`. -/
def ioLaneStreamSpec (enc : List ℕ) (B L b j : ℕ) : ℕ :=
  enc.getD (b * (numBatchesOf enc.length B L * L) + j) 0

/-- The `(X, Y, epoch)` triples yielded during iteration `i` of
`io_batch_generator` (empty when the chunk yields `num_batches = 0`; the
Python generator raises `ValueError` there and yields nothing). -/
def ioBatchesAt (content : List Char) (M B L i : ℕ) :
    List (List (List ℕ) × (List (List ℕ) × ℕ)) :=
  let enc := encode_text (ioChunkAt content M i)
  (List.range (numBatchesOf enc.length B L)).map
    (fun k => (ioBatchX enc B L k, (ioBatchY enc B L k, ioEpochAt content.length M i)))

/-! ### Autoregressive generation (`keras_model.generate_text`) -/

/-- The generation loop of `generate_text`: the stateful model is a function
from the full history of fed ids to the output distribution for the last fed
id; `fed` is the history (seed prefix plus everything fed so far), `next` the
id about to be fed, `i` the step counter indexing the random stream. -/
def genLoop (model : List ℕ → List ℚ) (top_n : ℕ) (rand : ℕ → ℚ) :
    ℕ → ℕ → List ℕ → List Char → ℕ → Except String (List Char)
  | 0, _, _, generated, _ => .ok generated
  | n + 1, i, fed, generated, next =>
    match sample_from_probs (model (fed ++ [next])) top_n (rand i) with
    | .error e => .error e
    | .ok idx =>
      match id2char idx with
      | .error e => .error e
      | .ok c => genLoop model top_n rand n (i + 1) (fed ++ [next]) (generated ++ c) idx

/-- `generate_text`: encode the seed, prime on all ids but the last
(outputs discarded — in this embedding priming is the initial `fed` history),
then sample `length` times, appending `ID2CHAR[next_index]` each step. -/
def generate_text (model : List ℕ → List ℚ) (seed : List Char)
    (length top_n : ℕ) (rand : ℕ → ℚ) : Except String (List Char) :=
  match (encode_text seed).getLast? with
  | none => .error "IndexError"
  | some last => genLoop model top_n rand length 0 (encode_text seed).dropLast seed last

/-! ### Helper lemmas -/

instance {ε α : Type _} [DecidableEq ε] [DecidableEq α] : DecidableEq (Except ε α) :=
  fun x y =>
    match x, y with
    | .ok a, .ok b =>
      if h : a = b then .isTrue (congrArg Except.ok h)
      else .isFalse (fun hc => h (Except.ok.inj hc))
    | .error a, .error b =>
      if h : a = b then .isTrue (congrArg Except.error h)
      else .isFalse (fun hc => h (Except.error.inj hc))
    | .ok _, .error _ => .isFalse (fun hc => Except.noConfusion hc)
    | .error _, .ok _ => .isFalse (fun hc => Except.noConfusion hc)

theorem mem_insertLe (le : α → α → Bool) (x a : α) (l : List α) :
    a ∈ insertLe le x l ↔ a = x ∨ a ∈ l := by
  induction l with
  | nil => simp [insertLe]
  | cons y ys ih =>
    simp only [insertLe]
    split
    · simp
    · simp only [List.mem_cons, ih]
      tauto

theorem mem_isortLe (le : α → α → Bool) (a : α) (l : List α) :
    a ∈ isortLe le l ↔ a ∈ l := by
  induction l with
  | nil => simp [isortLe]
  | cons y ys ih =>
    show a ∈ insertLe le y (isortLe le ys) ↔ _
    rw [mem_insertLe]
    simp only [List.mem_cons]
    rw [ih]

theorem char2id_of_mem {c : Char} (h : c ∈ chars) :
    ∃ i, char2id c = i + 1 ∧ chars[i]? = some c := by
  have hex : ∃ x ∈ chars, (x == c) = true := ⟨c, h, beq_self_eq_true c⟩
  have hlt : chars.findIdx (fun x => x == c) < chars.length :=
    List.findIdx_lt_length_of_exists hex
  refine ⟨chars.findIdx (fun x => x == c), ?_, ?_⟩
  · unfold char2id
    rw [List.findIdx?_eq_some_iff_findIdx_eq.mpr ⟨hlt, rfl⟩]
  · have hp : (chars[chars.findIdx (fun x => x == c)] == c) = true :=
      List.findIdx_getElem (w := hlt)
    rw [List.getElem?_eq_getElem hlt]
    exact congrArg some (eq_of_beq hp)

theorem char2id_of_not_mem {c : Char} (h : c ∉ chars) : char2id c = 0 := by
  unfold char2id
  rw [List.findIdx?_eq_none_iff.mpr ?_]
  intro x hx
  by_contra hbeq
  exact h (eq_of_beq (Bool.of_not_eq_false hbeq) ▸ hx)

theorem id2char_char2id_of_mem {c : Char} (h : c ∈ chars) :
    id2char (char2id c) = .ok [c] := by
  obtain ⟨i, hci, hget⟩ := char2id_of_mem h
  rw [hci]
  unfold id2char
  simp [hget]

/-! ### C7 and C10: codec round trips -/

/-- C7: for every string composed only of supported characters,
`decode(encode(s)) = s`; `encode` is total and length-preserving. -/
theorem roundtrip_supported_c7 (s : List Char) (h : ∀ c ∈ s, c ∈ chars) :
    decode_text (encode_text s) = .ok s ∧ (encode_text s).length = s.length := by
  constructor
  · induction s with
    | nil => rfl
    | cons c cs ih =>
      have hc : c ∈ chars := h c (by simp)
      have hcs : decode_text (encode_text cs) = .ok cs :=
        ih (fun x hx => h x (by simp [hx]))
      show decode_text (char2id c :: encode_text cs) = .ok (c :: cs)
      unfold decode_text
      rw [id2char_char2id_of_mem hc, hcs]
      rfl
  · simp [encode_text]

/-- Witness for C7 at a concrete supported string. -/
theorem roundtrip_supported_c7_witness :
    (∀ c ∈ ['a', 'b'], c ∈ chars) ∧
      (decode_text (encode_text ['a', 'b']) = .ok ['a', 'b'] ∧
        (encode_text ['a', 'b']).length = ['a', 'b'].length) :=
  ⟨by decide, roundtrip_supported_c7 ['a', 'b'] (by decide)⟩

/-- C10: for every string, `decode(encode(s))` is `s` with every character
outside the supported set deleted (unmapped characters encode to `0`, which
decodes to the empty string). -/
theorem roundtrip_unsupported_deleted_c10 (s : List Char) :
    decode_text (encode_text s) = .ok (s.filter (fun c => decide (c ∈ chars))) := by
  induction s with
  | nil => rfl
  | cons c cs ih =>
    show decode_text (char2id c :: encode_text cs) = _
    by_cases hc : c ∈ chars
    · unfold decode_text
      rw [id2char_char2id_of_mem hc, ih]
      simp [List.filter_cons, hc]
    · unfold decode_text
      rw [char2id_of_not_mem hc]
      have h0 : id2char 0 = .ok [] := rfl
      rw [h0, ih]
      simp [List.filter_cons, hc]

/-! ### C5 and C8: constrained sampler -/

/-- C5: if every entry retained by the truncation step is exactly zero, the
sampler fails (renormalisation of an all-zero vector) instead of returning an
index. -/
theorem degenerate_distribution_c5 (probs : List ℚ) (top_n : ℕ) (r : ℚ)
    (h : ∀ i ∈ keptIdx probs top_n, probs.getD i 0 = 0) :
    sample_from_probs probs top_n r = .error "DegenerateDistributionError" := by
  have hsum : (truncateTop probs top_n).sum = 0 := by
    apply List.sum_eq_zero
    intro x hx
    simp only [truncateTop, List.mem_map, List.mem_range] at hx
    obtain ⟨i, hi, rfl⟩ := hx
    split
    · rfl
    · next hnot =>
      apply h
      have hmem : i ∈ argsortLe probs := by
        rw [argsortLe, mem_isortLe]
        exact List.mem_range.mpr hi
      have hsplit : i ∈ droppedIdx probs top_n ++ keptIdx probs top_n := by
        rw [droppedIdx, keptIdx, List.take_append_drop]
        exact hmem
      rcases List.mem_append.mp hsplit with h1 | h1
      · exact absurd h1 hnot
      · exact h1
  simp only [sample_from_probs]
  rw [if_pos hsum]

/-- Witness for C5: both retained entries of `[0, 0]` with `top_n = 1` are
zero, and sampling fails. -/
theorem degenerate_distribution_c5_witness :
    (∀ i ∈ keptIdx [0, 0] 1, ([0, 0] : List ℚ).getD i 0 = 0) ∧
      sample_from_probs [0, 0] 1 0 = .error "DegenerateDistributionError" :=
  ⟨by decide, degenerate_distribution_c5 [0, 0] 1 0 (by decide)⟩

/-- C8: with `probs = [0.05, 0.05, 0.05, 0.05, 0.8]` and `top_n = 1`,
the sampler returns index 4 for every uniform draw. -/
theorem sampler_truncation_c8 (r : ℚ) (h : 0 ≤ r) :
    sample_from_probs [1/20, 1/20, 1/20, 1/20, 4/5] 1 r = .ok 4 := by
  have ht : truncateTop [1/20, 1/20, 1/20, 1/20, 4/5] 1 = [0, 0, 0, 0, 4/5] := by
    with_unfolding_all decide
  have hch : chooseIdx [0, 0, 0, 0, 1] r = 4 := by
    simp [chooseIdx, not_lt.mpr h, sub_zero]
  simp only [sample_from_probs, ht]
  norm_num [List.sum_cons, List.sum_nil, hch]

/-- Witness for C8 at the concrete draw `r = 1/2`. -/
theorem sampler_truncation_c8_witness :
    (0 : ℚ) ≤ 1 / 2 ∧
      sample_from_probs [1/20, 1/20, 1/20, 1/20, 4/5] 1 (1/2) = .ok 4 :=
  ⟨by norm_num, sampler_truncation_c8 (1/2) (by norm_num)⟩

/-! ### C9: insufficient data -/

/-- C9: whenever `(len(sequence) - 1) // (batch_size * seq_len) = 0` (with
positive batch dimensions), constructing the in-memory generator fails before
any batch is produced. -/
theorem insufficient_data_c9 (seq : List ℕ) (B L : ℕ) (_hB : 0 < B) (_hL : 0 < L)
    (h : (seq.length - 1) / (B * L) = 0) :
    batch_generator_check seq B L = .error "ValueError" := by
  unfold batch_generator_check numBatchesOf
  rw [if_pos h]

/-- Witness for C9 at the claim's own instance `sequence = [1,2,3]`,
`batch_size = seq_len = 4`. -/
theorem insufficient_data_c9_witness :
    (0 < 4 ∧ 0 < 4 ∧ (([1, 2, 3] : List ℕ).length - 1) / (4 * 4) = 0) ∧
      batch_generator_check [1, 2, 3] 4 4 = .error "ValueError" :=
  ⟨by decide, insufficient_data_c9 [1, 2, 3] 4 4 (by decide) (by decide) (by decide)⟩

/-! ### C6: seed selector -/

/-- Counterexample to C6 as stated: `text = "abcde"` is not shorter than the
smallest candidate length + 1 (`2 + 1 = 3`), yet `generate_seed` fails when
the random choice picks candidate length 8 (`randint(0, 5 - 8 - 1)` raises). -/
theorem generate_seed_counterexample_c6 :
    generate_seed ['a', 'b', 'c', 'd', 'e'] [2, 4, 8, 16, 32] 2 0 =
        .error "ValueError" ∧
      ¬ ((['a', 'b', 'c', 'd', 'e'] : List Char).length < 2 + 1) := by
  decide

/-- C6 amended: `generate_seed` fails iff the text is shorter than the
*chosen* candidate length + 1 (the length is chosen before the range check);
otherwise it returns the substring of the chosen length `sl` starting at
`r % (len(text) - sl)`, a valid offset in `[0, len(text) - sl - 1]`. -/
theorem generate_seed_amended_c6 (text : List Char) (seqLens : List ℕ)
    (choice r sl : ℕ) (hne : seqLens ≠ [])
    (hsl : sl = seqLens.getD (choice % seqLens.length) 0) :
    (text.length < sl + 1 →
      generate_seed text seqLens choice r = .error "ValueError") ∧
    (sl + 1 ≤ text.length →
      generate_seed text seqLens choice r =
          .ok ((text.drop (r % (text.length - sl))).take sl) ∧
        r % (text.length - sl) + sl < text.length ∧
        ((text.drop (r % (text.length - sl))).take sl).length = sl ∧
        sl ∈ seqLens) := by
  subst hsl
  constructor
  · intro hlt
    simp only [generate_seed]
    rw [if_pos hlt]
  · intro hge
    have hpos : 0 < text.length - seqLens.getD (choice % seqLens.length) 0 := by omega
    have hmod := Nat.mod_lt r hpos
    refine ⟨?_, by omega, ?_, ?_⟩
    · simp only [generate_seed]
      rw [if_neg (by omega)]
    · simp only [List.length_take, List.length_drop]
      omega
    · have hi : choice % seqLens.length < seqLens.length :=
        Nat.mod_lt _ (List.length_pos.mpr hne)
      rw [List.getD_eq_getElem _ _ hi]
      exact List.getElem_mem hi

/-- Witness for C6 amended: text "abcdef", candidate set `{2,4,8,16,32}`,
choice index 0 (length 2), draw 7. -/
theorem generate_seed_amended_c6_witness :
    (([2, 4, 8, 16, 32] : List ℕ) ≠ [] ∧
        2 = ([2, 4, 8, 16, 32] : List ℕ).getD (0 % 5) 0) ∧
      ((['a', 'b', 'c', 'd', 'e', 'f'] : List Char).length < 2 + 1 →
        generate_seed ['a', 'b', 'c', 'd', 'e', 'f'] [2, 4, 8, 16, 32] 0 7 =
          .error "ValueError") ∧
      (2 + 1 ≤ (['a', 'b', 'c', 'd', 'e', 'f'] : List Char).length →
        generate_seed ['a', 'b', 'c', 'd', 'e', 'f'] [2, 4, 8, 16, 32] 0 7 =
            .ok ((['a', 'b', 'c', 'd', 'e', 'f'].drop
              (7 % ((['a', 'b', 'c', 'd', 'e', 'f'] : List Char).length - 2))).take 2) ∧
          7 % ((['a', 'b', 'c', 'd', 'e', 'f'] : List Char).length - 2) + 2 <
            (['a', 'b', 'c', 'd', 'e', 'f'] : List Char).length ∧
          ((['a', 'b', 'c', 'd', 'e', 'f'].drop
              (7 % ((['a', 'b', 'c', 'd', 'e', 'f'] : List Char).length - 2))).take 2).length = 2 ∧
          2 ∈ ([2, 4, 8, 16, 32] : List ℕ)) :=
  ⟨⟨by decide, by decide⟩,
    generate_seed_amended_c6 ['a', 'b', 'c', 'd', 'e', 'f'] [2, 4, 8, 16, 32] 0 7 2
      (by decide) (by decide)⟩

/-! ### C3: generation length -/

theorem id2char_length_le {i : ℕ} {c : List Char} (h : id2char i = .ok c) :
    c.length ≤ 1 := by
  unfold id2char at h
  split at h
  · cases h
    simp
  · rcases hg : chars[i - 1]? with _ | ch
    · rw [hg] at h
      cases h
    · rw [hg] at h
      cases h
      simp

theorem genLoop_length_le (model : List ℕ → List ℚ) (top_n : ℕ) (rand : ℕ → ℚ) :
    ∀ (fuel i : ℕ) (fed : List ℕ) (g : List Char) (next : ℕ) (out : List Char),
      genLoop model top_n rand fuel i fed g next = .ok out →
      g.length ≤ out.length ∧ out.length ≤ g.length + fuel := by
  intro fuel
  induction fuel with
  | zero =>
    intro i fed g next out h
    cases h
    omega
  | succ n ih =>
    intro i fed g nxt out h
    unfold genLoop at h
    split at h
    · cases h
    · split at h
      · cases h
      · rename_i idx _ _ c hc
        have hrec := ih (i + 1) (fed ++ [nxt]) (g ++ c) idx out h
        have hc1 := id2char_length_le hc
        rw [List.length_append] at hrec
        omega

/-- Counterexample to C3 as stated: a model putting all probability mass on
id 0 (whose decoded character is the empty string `""`) makes `generate_text`
return a string of length `len(seed)`, not `len(seed) + length`. -/
theorem generation_length_counterexample_c3 :
    generate_text (fun _ => [1]) ['a', 'b'] 10 3 (fun _ => 1/2) = .ok ['a', 'b'] ∧
      (['a', 'b'] : List Char).length ≠ (['a', 'b'] : List Char).length + 10 := by
  constructor
  · with_unfolding_all decide
  · decide

/-- C3 amended: `generate(model, seed, length, top_n)` returns a string of
length between `len(seed)` and `len(seed) + length`: each generation step
appends the decoded character of the sampled id, which is the empty string
exactly when id 0 is sampled, so such steps contribute nothing. -/
theorem generation_length_c3 (model : List ℕ → List ℚ) (seed : List Char)
    (length top_n : ℕ) (rand : ℕ → ℚ) (out : List Char)
    (_hseed : seed ≠ [])
    (h : generate_text model seed length top_n rand = .ok out) :
    seed.length ≤ out.length ∧ out.length ≤ seed.length + length := by
  unfold generate_text at h
  split at h
  · cases h
  · rename_i last _
    exact genLoop_length_le model top_n rand length 0 (encode_text seed).dropLast
      seed last out h

/-- Witness for C3 amended: a two-symbol model sampling id 0 at every step
still satisfies the length bounds. -/
theorem generation_length_c3_witness :
    ((['a'] : List Char) ≠ [] ∧
        generate_text (fun _ => [mkRat 1 2, mkRat 1 2]) ['a'] 2 2 (fun _ => mkRat 1 4) =
          .ok ['a']) ∧
      ((['a'] : List Char).length ≤ (['a'] : List Char).length ∧
        (['a'] : List Char).length ≤ (['a'] : List Char).length + 2) :=
  ⟨⟨by decide, by with_unfolding_all decide⟩,
    generation_length_c3 (fun _ => [mkRat 1 2, mkRat 1 2]) ['a'] 2 2 (fun _ => mkRat 1 4)
      ['a'] (by decide) (by with_unfolding_all decide)⟩

/-! ### List access lemmas for the batch machinery -/

theorem getD_map_range {α : Type _} (f : ℕ → α) (n b : ℕ) (d : α) (hb : b < n) :
    ((List.range n).map f).getD b d = f b := by
  rw [List.getD_eq_getElem _ _ (by simpa using hb)]
  simp

theorem getD_map_of_lt {α β : Type _} (f : α → β) (l : List α) (b : ℕ) (d : β)
    (d0 : α) (hb : b < l.length) :
    (l.map f).getD b d = f (l.getD b d0) := by
  rw [List.getD_eq_getElem _ _ (by simpa using hb), List.getD_eq_getElem _ _ hb,
    List.getElem_map]

theorem getD_rotate {α : Type _} (l : List α) (e b : ℕ) (d : α) (hb : b < l.length) :
    (l.rotate e).getD b d = l.getD ((b + e) % l.length) d := by
  rw [List.getD_eq_getElem _ _ (by simpa using hb),
    List.getD_eq_getElem _ _ (Nat.mod_lt _ (by omega)), List.getElem_rotate]

theorem getD_take_of_lt {α : Type _} (l : List α) (n i : ℕ) (d : α) (h : i < n) :
    (l.take n).getD i d = l.getD i d := by
  by_cases hi : i < l.length
  · rw [List.getD_eq_getElem _ _ (by simp [List.length_take]; omega),
      List.getD_eq_getElem _ _ hi, List.getElem_take]
  · rw [List.getD_eq_default _ _ (by simp [List.length_take]; omega),
      List.getD_eq_default _ _ (by omega)]

theorem getD_drop {α : Type _} (l : List α) (m i : ℕ) (d : α) :
    (l.drop m).getD i d = l.getD (m + i) d := by
  by_cases hi : m + i < l.length
  · rw [List.getD_eq_getElem _ _ (by simp [List.length_drop]; omega),
      List.getD_eq_getElem _ _ hi, List.getElem_drop]
  · rw [List.getD_eq_default _ _ (by simp [List.length_drop]; omega),
      List.getD_eq_default _ _ (by omega)]

theorem drop_take_eq_map_range {α : Type _} (l : List α) (a n : ℕ) (d : α)
    (h : a + n ≤ l.length) :
    (l.drop a).take n = (List.range n).map (fun j => l.getD (a + j) d) := by
  apply List.ext_getElem
  · simp only [List.length_take, List.length_drop, List.length_map, List.length_range]
    omega
  · intro i h1 h2
    have hi : i < n := by simpa using h2
    rw [List.getElem_take, List.getElem_drop, List.getElem_map, List.getElem_range,
      List.getD_eq_getElem _ _ (show a + i < l.length by omega)]

theorem flatten_colSlices {α : Type _} (L : ℕ) :
    ∀ (N : ℕ) (S : List α), S.length = N * L →
      ((List.range N).map (fun k => (S.drop (k * L)).take L)).flatten = S := by
  intro N
  induction N with
  | zero =>
    intro S hS
    simp only [Nat.zero_mul] at hS
    rw [List.length_eq_zero] at hS
    simp [hS]
  | succ n ih =>
    intro S hS
    rw [List.range_succ_eq_map, List.map_cons, List.flatten_cons]
    have hdt : ∀ k : ℕ, (S.drop (Nat.succ k * L)).take L
        = ((S.drop L).drop (k * L)).take L := by
      intro k
      have hee : Nat.succ k * L = L + k * L := by
        rw [Nat.succ_mul]
        omega
      rw [List.drop_drop, hee]
    have hmap : (List.map Nat.succ (List.range n)).map (fun k => (S.drop (k * L)).take L)
        = (List.range n).map (fun k => ((S.drop L).drop (k * L)).take L) := by
      rw [List.map_map]
      exact List.map_congr_left (fun k _ => hdt k)
    have hlen : (S.drop L).length = n * L := by
      rw [List.length_drop, hS, Nat.succ_mul]
      omega
    rw [hmap, ih (S.drop L) hlen]
    simp

/-! ### Elementwise form of the emitted batches -/

theorem colSlice_rotate_reshape_getD (l : List ℕ) (B C L e k b t : ℕ)
    (hB : 0 < B) (hb : b < B) (ht : t < L) (hkt : k * L + t < C) :
    ((colSlice ((reshape2 l B C).rotate e) L k).getD b []).getD t 0
      = l.getD (((b + e) % B) * C + (k * L + t)) 0 := by
  have hrl : (reshape2 l B C).length = B := by
    simp [reshape2]
  have hlen : ((reshape2 l B C).rotate e).length = B := by
    rw [List.length_rotate, hrl]
  rw [colSlice, getD_map_of_lt _ _ b [] [] (by rw [hlen]; exact hb),
    getD_rotate _ e b [] (by rw [hrl]; exact hb), hrl,
    reshape2, getD_map_range _ B _ [] (Nat.mod_lt _ hB),
    getD_take_of_lt _ L t 0 ht, getD_drop,
    getD_map_range _ C _ 0 (by omega)]

theorem xElemAt_eq (seq : List ℕ) (B L e k b t : ℕ) (hB : 0 < B) (hb : b < B)
    (ht : t < L) (hk : k < numBatchesOf seq.length B L) :
    xElemAt seq B L e k b t
      = seq.getD
          (((b + e) % B) * (numBatchesOf seq.length B L * L) + (k * L + t)) 0 := by
  have hkt : k * L + t < numBatchesOf seq.length B L * L := by
    calc k * L + t < k * L + L := by omega
    _ = (k + 1) * L := by ring
    _ ≤ numBatchesOf seq.length B L * L := Nat.mul_le_mul_right L (by omega)
  have hp : (b + e) % B < B := Nat.mod_lt _ hB
  have hlt : ((b + e) % B) * (numBatchesOf seq.length B L * L) + (k * L + t)
      < numBatchesOf seq.length B L * B * L := by
    calc ((b + e) % B) * (numBatchesOf seq.length B L * L) + (k * L + t)
        < ((b + e) % B) * (numBatchesOf seq.length B L * L)
            + numBatchesOf seq.length B L * L := by omega
    _ = (((b + e) % B) + 1) * (numBatchesOf seq.length B L * L) := by ring
    _ ≤ B * (numBatchesOf seq.length B L * L) := Nat.mul_le_mul_right _ (by omega)
    _ = numBatchesOf seq.length B L * B * L := by ring
  show ((colSlice
      ((reshape2 (seq.take (numBatchesOf seq.length B L * B * L)) B
        (numBatchesOf seq.length B L * L)).rotate e) L k).getD b []).getD t 0 = _
  rw [colSlice_rotate_reshape_getD _ B _ L e k b t hB hb ht hkt,
    getD_take_of_lt _ _ _ _ hlt]

theorem yElemAt_eq (seq : List ℕ) (B L e k b t : ℕ) (hB : 0 < B) (hb : b < B)
    (ht : t < L) (hk : k < numBatchesOf seq.length B L) :
    yElemAt seq B L e k b t
      = seq.getD
          (((b + e) % B) * (numBatchesOf seq.length B L * L) + (k * L + t) + 1) 0 := by
  have hkt : k * L + t < numBatchesOf seq.length B L * L := by
    calc k * L + t < k * L + L := by omega
    _ = (k + 1) * L := by ring
    _ ≤ numBatchesOf seq.length B L * L := Nat.mul_le_mul_right L (by omega)
  have hp : (b + e) % B < B := Nat.mod_lt _ hB
  have hlt : ((b + e) % B) * (numBatchesOf seq.length B L * L) + (k * L + t)
      < numBatchesOf seq.length B L * B * L := by
    calc ((b + e) % B) * (numBatchesOf seq.length B L * L) + (k * L + t)
        < ((b + e) % B) * (numBatchesOf seq.length B L * L)
            + numBatchesOf seq.length B L * L := by omega
    _ = (((b + e) % B) + 1) * (numBatchesOf seq.length B L * L) := by ring
    _ ≤ B * (numBatchesOf seq.length B L * L) := Nat.mul_le_mul_right _ (by omega)
    _ = numBatchesOf seq.length B L * B * L := by ring
  show ((colSlice
      ((reshape2 ((seq.drop 1).take (numBatchesOf seq.length B L * B * L)) B
        (numBatchesOf seq.length B L * L)).rotate e) L k).getD b []).getD t 0 = _
  rw [colSlice_rotate_reshape_getD _ B _ L e k b t hB hb ht hkt,
    getD_take_of_lt _ _ _ _ hlt, getD_drop, Nat.add_comm 1]

theorem ioBatchX_eq_batchX (enc : List ℕ) (B L k : ℕ) :
    ioBatchX enc B L k = batchX enc B L 0 k := by
  simp [ioBatchX, batchX, List.rotate_zero]

theorem ioBatchY_eq_batchY (enc : List ℕ) (B L k : ℕ) :
    ioBatchY enc B L k = batchY enc B L 0 k := by
  simp [ioBatchY, batchY, List.rotate_zero]

theorem ioXElemAt_eq (enc : List ℕ) (B L k b t : ℕ) (hB : 0 < B) (hb : b < B)
    (ht : t < L) (hk : k < numBatchesOf enc.length B L) :
    ioXElemAt enc B L k b t
      = enc.getD (b * (numBatchesOf enc.length B L * L) + (k * L + t)) 0 := by
  have h := xElemAt_eq enc B L 0 k b t hB hb ht hk
  simp only [Nat.add_zero, Nat.mod_eq_of_lt hb] at h
  unfold ioXElemAt
  rw [ioBatchX_eq_batchX]
  exact h

theorem ioYElemAt_eq (enc : List ℕ) (B L k b t : ℕ) (hB : 0 < B) (hb : b < B)
    (ht : t < L) (hk : k < numBatchesOf enc.length B L) :
    ioYElemAt enc B L k b t
      = enc.getD (b * (numBatchesOf enc.length B L * L) + (k * L + t) + 1) 0 := by
  have h := yElemAt_eq enc B L 0 k b t hB hb ht hk
  simp only [Nat.add_zero, Nat.mod_eq_of_lt hb] at h
  unfold ioYElemAt
  rw [ioBatchY_eq_batchY]
  exact h

/-! ### C1: shift invariant -/

/-- C1: for both generators, `Y[b,t]` is the token that follows `X[b,t]` in
the logical token stream underlying row `b` — the in-memory stream of output
row `b` at epoch `e` is the corpus segment of physical lane `(b+e) % B`, and
the streaming stream of row `b` is that row's segment of the encoded chunk.
`X[b,t]` sits at offset `k*L + t` of the stream, `Y[b,t]` at offset
`k*L + t + 1`. -/
theorem shift_invariant_c1 (seq enc : List ℕ) (B L e k k2 b t : ℕ)
    (hB : 0 < B) (ht : t < L) (hb : b < B)
    (hk : k < numBatchesOf seq.length B L)
    (hk2 : k2 < numBatchesOf enc.length B L) :
    (xElemAt seq B L e k b t = laneStreamSpec seq B L e b (k * L + t) ∧
      yElemAt seq B L e k b t = laneStreamSpec seq B L e b (k * L + t + 1)) ∧
    (ioXElemAt enc B L k2 b t = ioLaneStreamSpec enc B L b (k2 * L + t) ∧
      ioYElemAt enc B L k2 b t = ioLaneStreamSpec enc B L b (k2 * L + t + 1)) := by
  refine ⟨⟨?_, ?_⟩, ?_, ?_⟩
  · exact xElemAt_eq seq B L e k b t hB hb ht hk
  · exact yElemAt_eq seq B L e k b t hB hb ht hk
  · exact ioXElemAt_eq enc B L k2 b t hB hb ht hk2
  · exact ioYElemAt_eq enc B L k2 b t hB hb ht hk2

/-- Witness for C1: `seq = enc = range 10`, `B = 2`, `L = 2` (two batches),
epoch 1, batch 1, row 1, column 1. -/
theorem shift_invariant_c1_witness :
    (0 < 2 ∧ 1 < 2 ∧ 1 < 2 ∧
        1 < numBatchesOf (List.range 10).length 2 2 ∧
        1 < numBatchesOf (List.range 10).length 2 2) ∧
      ((xElemAt (List.range 10) 2 2 1 1 1 1 =
          laneStreamSpec (List.range 10) 2 2 1 1 (1 * 2 + 1) ∧
        yElemAt (List.range 10) 2 2 1 1 1 1 =
          laneStreamSpec (List.range 10) 2 2 1 1 (1 * 2 + 1 + 1)) ∧
      (ioXElemAt (List.range 10) 2 2 1 1 1 =
          ioLaneStreamSpec (List.range 10) 2 2 1 (1 * 2 + 1) ∧
        ioYElemAt (List.range 10) 2 2 1 1 1 =
          ioLaneStreamSpec (List.range 10) 2 2 1 (1 * 2 + 1 + 1))) :=
  ⟨⟨by decide, by decide, by decide, by decide, by decide⟩,
    shift_invariant_c1 (List.range 10) (List.range 10) 2 2 1 1 1 1 1
      (by decide) (by decide) (by decide) (by decide) (by decide)⟩

/-! ### C2: lane rotation and continuity -/

theorem batchX_row (seq : List ℕ) (B L e k b : ℕ) (_hB : 0 < B) (hb : b < B) :
    (batchX seq B L e k).getD b []
      = (((reshape2 (seq.take (numBatchesOf seq.length B L * B * L)) B
            (numBatchesOf seq.length B L * L)).getD ((b + e) % B) []).drop
            (k * L)).take L := by
  have hrl : (reshape2 (seq.take (numBatchesOf seq.length B L * B * L)) B
      (numBatchesOf seq.length B L * L)).length = B := by
    simp [reshape2]
  show (colSlice ((reshape2 (seq.take (numBatchesOf seq.length B L * B * L)) B
      (numBatchesOf seq.length B L * L)).rotate e) L k).getD b [] = _
  rw [colSlice, getD_map_of_lt _ _ b [] [] (by rw [List.length_rotate, hrl]; exact hb),
    getD_rotate _ e b [] (by rw [hrl]; exact hb), hrl]

/-- Counterexample to C2's epoch-boundary sentence: with the corpus
`0..9`, `B = 3`, `L = 1` (three batches per epoch), output row 0 of epoch 0
is the lane `[0,1,2]`; the claim says output row `(0+1) % 3 = 1` of epoch 1
is that lane continuing where it left off (i.e. starting at token 3), but it
is actually `[6,7,8]`. -/
theorem lane_rotation_counterexample_c2 :
    epochRow (List.range 10) 3 1 0 0 = [0, 1, 2] ∧
      epochRow (List.range 10) 3 1 1 1 = [6, 7, 8] ∧
      epochRow (List.range 10) 3 1 1 1 ≠ [0, 1, 2] ∧
      (epochRow (List.range 10) 3 1 1 1).getD 0 0 ≠ 3 := by
  refine ⟨by decide, by decide, by decide, by decide⟩

/-- C2 amended: on epoch `e` the rows are cyclically rotated by `-e` — output
row `b` is grid row `(b+e) % B`; concatenating row `b`'s slices across the
epoch's batches reproduces the contiguous segment of the rounded corpus
assigned to grid row `(b+e) % B`; across the epoch boundary, output row `b`
at epoch `e+1` is the lane that was output row `(b+1) mod B` at epoch `e`
(the claim stated the correspondence in the reverse direction), and — as long
as the underlying grid row does not wrap — output row `b` at epoch `e+1`
starts exactly one token after where output row `b` of epoch `e` left off. -/
theorem lane_rotation_c2 (seq : List ℕ) (B L e k b : ℕ)
    (hB : 0 < B) (hL : 0 < L) (hb : b < B)
    (hk : k < numBatchesOf seq.length B L) :
    ((batchX seq B L e k).getD b [] = (batchX seq B L 0 k).getD ((b + e) % B) []) ∧
    (epochRow seq B L e b
      = ((seq.take (numBatchesOf seq.length B L * B * L)).drop
          (((b + e) % B) * (numBatchesOf seq.length B L * L))).take
          (numBatchesOf seq.length B L * L)) ∧
    ((batchX seq B L (e + 1) k).getD b [] = (batchX seq B L e k).getD ((b + 1) % B) []) ∧
    ((b + e) % B + 1 < B →
      xElemAt seq B L (e + 1) 0 b 0
        = seq.getD (((b + e) % B) * (numBatchesOf seq.length B L * L)
            + numBatchesOf seq.length B L * L) 0) := by
  have hpB : (b + e) % B < B := Nat.mod_lt _ hB
  have hN : 0 < numBatchesOf seq.length B L := by omega
  have hTlen : (seq.take (numBatchesOf seq.length B L * B * L)).length
      = numBatchesOf seq.length B L * B * L := by
    have h1 : numBatchesOf seq.length B L * (B * L) ≤ seq.length - 1 :=
      Nat.div_mul_le_self _ _
    have h2 : numBatchesOf seq.length B L * B * L
        = numBatchesOf seq.length B L * (B * L) := by ring
    have h3 : 0 < seq.length - 1 ∨ numBatchesOf seq.length B L * (B * L) = 0 := by
      rcases Nat.eq_zero_or_pos (seq.length - 1) with h | h
      · right
        omega
      · left
        exact h
    rw [List.length_take]
    rcases h3 with h3 | h3
    · omega
    · have : 0 < numBatchesOf seq.length B L * (B * L) :=
        Nat.mul_pos hN (Nat.mul_pos hB hL)
      omega
  have hrowval : (reshape2 (seq.take (numBatchesOf seq.length B L * B * L)) B
      (numBatchesOf seq.length B L * L)).getD ((b + e) % B) []
      = (List.range (numBatchesOf seq.length B L * L)).map
          (fun c => (seq.take (numBatchesOf seq.length B L * B * L)).getD
            (((b + e) % B) * (numBatchesOf seq.length B L * L) + c) 0) := by
    rw [reshape2, getD_map_range _ B _ [] hpB]
  refine ⟨?_, ?_, ?_, ?_⟩
  · rw [batchX_row seq B L e k b hB hb,
      batchX_row seq B L 0 k ((b + e) % B) hB hpB, Nat.add_zero,
      Nat.mod_eq_of_lt hpB]
  · unfold epochRow
    have hcongr : (List.range (numBatchesOf seq.length B L)).map
        (fun k2 => (batchX seq B L e k2).getD b [])
        = (List.range (numBatchesOf seq.length B L)).map
            (fun k2 => ((((reshape2 (seq.take (numBatchesOf seq.length B L * B * L)) B
              (numBatchesOf seq.length B L * L)).getD ((b + e) % B) [])).drop
              (k2 * L)).take L) :=
      List.map_congr_left (fun k2 _ => batchX_row seq B L e k2 b hB hb)
    rw [hcongr, flatten_colSlices L (numBatchesOf seq.length B L) _
      (by rw [hrowval]; simp)]
    have hbound : ((b + e) % B) * (numBatchesOf seq.length B L * L)
        + numBatchesOf seq.length B L * L
        ≤ (seq.take (numBatchesOf seq.length B L * B * L)).length := by
      have h4 : (((b + e) % B) + 1) * (numBatchesOf seq.length B L * L)
          ≤ B * (numBatchesOf seq.length B L * L) :=
        Nat.mul_le_mul_right _ (by omega)
      have h5 : ((b + e) % B) * (numBatchesOf seq.length B L * L)
          + numBatchesOf seq.length B L * L
          = (((b + e) % B) + 1) * (numBatchesOf seq.length B L * L) := by ring
      have h6 : B * (numBatchesOf seq.length B L * L)
          = numBatchesOf seq.length B L * B * L := by ring
      omega
    rw [hrowval]
    exact (drop_take_eq_map_range _ _ _ 0 hbound).symm
  · rw [batchX_row seq B L (e + 1) k b hB hb,
      batchX_row seq B L e k ((b + 1) % B) hB (Nat.mod_lt _ hB)]
    have hidx : ((b + 1) % B + e) % B = (b + (e + 1)) % B := by
      rw [Nat.mod_add_mod]
      congr 1
      omega
    rw [hidx]
  · intro hwrap
    have h1 := xElemAt_eq seq B L (e + 1) 0 b 0 hB hb hL hN
    have hm : (b + (e + 1)) % B = (b + e) % B + 1 := by
      have hbe : b + (e + 1) = (b + e) + 1 := by omega
      rw [hbe, Nat.add_mod, Nat.mod_eq_of_lt (show 1 < B by omega),
        Nat.mod_eq_of_lt hwrap]
    rw [h1, hm]
    congr 1
    ring

/-- Witness for C2 amended at `seq = 0..9`, `B = 3`, `L = 1`, epoch 1,
batch 0, row 0. -/
theorem lane_rotation_c2_witness :
    (0 < 3 ∧ 0 < 1 ∧ 0 < 3 ∧ 0 < numBatchesOf (List.range 10).length 3 1) ∧
      (((batchX (List.range 10) 3 1 1 0).getD 0 []
          = (batchX (List.range 10) 3 1 0 0).getD ((0 + 1) % 3) []) ∧
      (epochRow (List.range 10) 3 1 1 0
        = (((List.range 10).take (numBatchesOf (List.range 10).length 3 1 * 3 * 1)).drop
            (((0 + 1) % 3) * (numBatchesOf (List.range 10).length 3 1 * 1))).take
            (numBatchesOf (List.range 10).length 3 1 * 1)) ∧
      ((batchX (List.range 10) 3 1 (1 + 1) 0).getD 0 []
        = (batchX (List.range 10) 3 1 1 0).getD ((0 + 1) % 3) []) ∧
      ((0 + 1) % 3 + 1 < 3 →
        xElemAt (List.range 10) 3 1 (1 + 1) 0 0 0
          = (List.range 10).getD (((0 + 1) % 3) * (numBatchesOf (List.range 10).length 3 1 * 1)
              + numBatchesOf (List.range 10).length 3 1 * 1) 0)) :=
  ⟨⟨by decide, by decide, by decide, by decide⟩,
    lane_rotation_c2 (List.range 10) 3 1 1 0 0 (by decide) (by decide) (by decide)
      (by decide)⟩

/-! ### C4: streaming epoch detection -/

theorem ioState_two_chunks (M : ℕ) (hM : 0 < M) :
    ∀ i, ioState (2 * M) M i = (if i % 2 = 0 then 0 else M, (i + 1) / 2) := by
  intro i
  induction i with
  | zero => simp [ioState]
  | succ n ih =>
    have h2M : 2 * M % M = 0 := Nat.mul_mod_left 2 M
    simp only [ioState, ih, h2M, Nat.sub_zero, Nat.min_def, Prod.mk.injEq]
    split_ifs <;> constructor <;> omega

/-- C4: for a source of exactly `2 * max_bytes_in_ram` bytes, every batch
yielded during loop iteration `i` carries epoch number `i / 2 + 1` — so both
chunks of the first pass (iterations 0 and 1) report epoch 1 and the first
batch after the cursor wraps (iteration 2) reports epoch 2 — and in general
the epoch counter increments from one iteration to the next exactly when the
read cursor has returned to the start of the source. -/
theorem epoch_detection_c4 (content : List Char) (M B L : ℕ)
    (hM : 0 < M) (hlen : content.length = 2 * M) :
    (∀ i, ∀ tr ∈ ioBatchesAt content M B L i, tr.2.2 = i / 2 + 1) ∧
    (∀ i, (ioEpochAt content.length M (i + 1) = ioEpochAt content.length M i + 1
      ↔ ioPosAt content.length M (i + 1) = 0)) := by
  have hMne : M ≠ 0 := by omega
  have hep : ∀ i, ioEpochAt content.length M i = i / 2 + 1 := by
    intro i
    unfold ioEpochAt
    rw [hlen, ioState_two_chunks M hM i]
    by_cases hpar : i % 2 = 0
    · simp [hpar]
      omega
    · simp [hpar, hMne]
      omega
  constructor
  · intro i tr htr
    unfold ioBatchesAt at htr
    simp only [List.mem_map, List.mem_range] at htr
    obtain ⟨k, hk, rfl⟩ := htr
    simpa using hep i
  · intro i
    rw [hep (i + 1), hep i]
    unfold ioPosAt
    rw [hlen, ioState_two_chunks M hM (i + 1)]
    by_cases hpar : (i + 1) % 2 = 0
    · simp [hpar]
      omega
    · simp [hpar, hMne]
      omega

/-- Witness for C4: a 6-byte source read in 3-byte chunks with `B = L = 1`,
instantiated at iteration 2 (first batch after the wrap, epoch `2/2 + 1 = 2`)
and at the epoch step from iteration 1 to 2. -/
theorem epoch_detection_c4_witness :
    (0 < 3 ∧ (List.replicate 6 'x').length = 2 * 3) ∧
      (∀ tr ∈ ioBatchesAt (List.replicate 6 'x') 3 1 1 2, tr.2.2 = 2 / 2 + 1) ∧
      (ioEpochAt (List.replicate 6 'x').length 3 (1 + 1)
          = ioEpochAt (List.replicate 6 'x').length 3 1 + 1
        ↔ ioPosAt (List.replicate 6 'x').length 3 (1 + 1) = 0) :=
  ⟨⟨by decide, by decide⟩,
    (epoch_detection_c4 (List.replicate 6 'x') 3 1 1 (by decide) (by decide)).1 2,
    (epoch_detection_c4 (List.replicate 6 'x') 3 1 1 (by decide) (by decide)).2 1⟩
